import Mathlib

/-
Verification development for the stroke-extraction core of getchar.py
(corner detection, corner merging, bridge classification and bridge
selection for glyph outlines).

Modelling conventions:
* Python complex numbers become Lean `Complex` (ℂ); `abs` is `Complex.abs`,
  and `math.atan2 (z.imag, z.real)` is `Complex.arg z` (both return a value
  in (-π, π] and send 0 to 0).
* Confidences returned by the classifier are the exact constants
  0, 1/2, 3/4, 1, modelled as ℚ so that candidate sorting is decidable.
  Python `True`/`False` used as numbers become `1`/`0`.
* Fallible operations (the `assert` in Corner.merge, the `assert` in
  augment_glyph, float division by zero in should_split, dict lookup)
  return `Except PyError`.
* List indexing with an in-range index is modelled by `List.getD` with a
  default; all executions considered here stay in range, as Python's do.
-/

noncomputable section

open Complex

open scoped Classical

/-- Errors a run of the Python code can raise: the `assert path` in
augment_glyph (the spec's InputError), the `assert` at the top of
Corner.merge, float division by zero in should_split, and dict lookup
failure. -/
inductive PyError where
  | inputError : PyError
  | crossSubpath : PyError
  | zeroDivision : PyError
  | keyError : PyError
deriving DecidableEq

/-- A path segment: a line or a quadratic Bezier curve, as produced by
svg.path.parse_path. `start`/`stop` are the segment endpoints (`stop` is
Python's `end`, which is a Lean keyword), `control` the quadratic control
point. -/
inductive Segment where
  | line (start stop : ℂ) : Segment
  | quad (start control stop : ℂ) : Segment
deriving DecidableEq

/-- The segment's start point (`.start` in the source). -/
def Segment.start : Segment → ℂ
  | .line s _ => s
  | .quad s _ _ => s

/-- The segment's end point (`.end` in the source). -/
def Segment.stop : Segment → ℂ
  | .line _ e => e
  | .quad _ _ e => e

/-- Default segment used for the `List.getD` modelling of list indexing. -/
def dseg : Segment := Segment.line 0 0

-- Constants controlling the stroke extraction algorithm (getchar.py lines 17-19).

/-- MAX_BRIDGE_DISTANCE = 128 -/
def MAX_BRIDGE_DISTANCE : ℝ := 128

/-- MAX_CORNER_MERGE_DISTANCE = 15 -/
def MAX_CORNER_MERGE_DISTANCE : ℝ := 15

/-- MIN_CORNER_ANGLE = 0.1 * pi -/
def MIN_CORNER_ANGLE : ℝ := 0.1 * Real.pi

/-- `atan2 y x` in the convention of `math.atan2`: the argument of the
complex number with real part `x` and imaginary part `y`; lies in
(-π, π] and `atan2 0 0 = 0`. -/
def atan2 (y x : ℝ) : ℝ := Complex.arg ⟨x, y⟩

/-- 2D dot product of two vectors represented as complex numbers. -/
def dotp (u v : ℂ) : ℝ := u.re * v.re + u.im * v.im

/-- 2D cross product (z-component) of two vectors represented as complex
numbers. -/
def crossp (u v : ℂ) : ℝ := u.re * v.im - u.im * v.re

/-- Corner._get_angle: 0 if either vector is falsy (i.e. zero), else
`atan2(ratio.imag, ratio.real)` for `ratio = vector1/vector2`, which is
the argument of `vector1/vector2`. -/
def get_angle (vector1 vector2 : ℂ) : ℝ :=
  if vector1 = 0 ∨ vector2 = 0 then 0 else Complex.arg (vector1 / vector2)

/-- Corner._get_tangents: tangent is end - start, overridden for
quadratic Beziers exactly as in the source (note the asymmetric
conditions: `end != control` for tangent1, `control != end` for
tangent2). -/
def get_tangents (path : List Segment) (index : ℕ) : ℂ × ℂ :=
  let segment1 := path.getD index dseg
  let tangent1 :=
    match segment1 with
    | .line s e => e - s
    | .quad s c e => if e ≠ c then e - c else e - s
  let segment2 := path.getD ((index + 1) % path.length) dseg
  let tangent2 :=
    match segment2 with
    | .line s e => e - s
    | .quad s c e => if c ≠ e then c - s else e - s
  (tangent1, tangent2)

/-- The Corner record: index (subpath index, segment index), location,
the two tangents at the corner and the turning angle. -/
structure Corner where
  index : ℕ × ℕ
  point : ℂ
  tangent1 : ℂ
  tangent2 : ℂ
  angle : ℝ
deriving DecidableEq

instance : Inhabited Corner := ⟨⟨(0, 0), 0, 0, 0, 0⟩⟩

/-- Corner.__init__: point is the end of segment j of subpath i, the
tangents come from _get_tangents and the angle from _get_angle. -/
def mkCorner (paths : List (List Segment)) (index : ℕ × ℕ) : Corner :=
  let path := paths.getD index.1 []
  let point := (path.getD index.2 dseg).stop
  let tangents := get_tangents path index.2
  { index := index
    point := point
    tangent1 := tangents.1
    tangent2 := tangents.2
    angle := get_angle tangents.1 tangents.2 }

/-- Length of a segment's chord, `abs(path[j].end - path[j].start)` as
used in the merge pass's along-contour walk. -/
def segLen (s : Segment) : ℝ := Complex.abs (s.stop - s.start)

/-- The along-contour walk of Corner.merge: starting from index `j`, step
`j := (j+1) % len(path)` accumulating chord lengths until `j` reaches
`target`. The fuel argument bounds the iteration; with `fuel =
path.length` it reproduces the Python loop whenever `target` is a valid
index (the only case in which the Python loop terminates). -/
def walkDistGo (path : List Segment) : ℕ → ℕ → ℕ → ℝ
  | 0, _, _ => 0
  | fuel + 1, j, target =>
    if j = target then 0
    else
      segLen (path.getD ((j + 1) % path.length) dseg) +
        walkDistGo path fuel ((j + 1) % path.length) target

/-- Along-contour distance from segment index `j` to `target`, as walked
by Corner.merge. -/
def walkDist (path : List Segment) (j target : ℕ) : ℝ :=
  walkDistGo path path.length j target

/-- Corner.merge. Returns `.error .crossSubpath` when the corners are on
different subpaths (the source's `assert`), `.ok none` when no merge
happens, and `.ok (some m)` with the updated other corner when the two
corners merge: `m` keeps the index/point of whichever corner has larger
absolute angle (the other one on ties), takes self's tangent1 and other's
tangent2, and recomputes the angle. -/
def merge (paths : List (List Segment)) (self other : Corner) :
    Except PyError (Option Corner) :=
  if other.index.1 ≠ self.index.1 then .error .crossSubpath
  else if Complex.abs (other.point - self.point) > MAX_CORNER_MERGE_DISTANCE then .ok none
  else
    let path := paths.getD self.index.1 []
    if walkDist path self.index.2 other.index.2 > MAX_CORNER_MERGE_DISTANCE then .ok none
    else
      let keep := if |self.angle| > |other.angle| then (self.index, self.point)
        else (other.index, other.point)
      .ok (some
        { index := keep.1
          point := keep.2
          tangent1 := self.tangent1
          tangent2 := other.tangent2
          angle := get_angle self.tangent1 other.tangent2 })

/-- Default corner for `List.getD` index modelling. -/
def dcorner : Corner := ⟨(0, 0), 0, 0, 0, 0⟩

/-- The merge-pass loop of get_corners: while j < len(corners), try to
merge corners[j] into corners[(j+1) % len(corners)]; on success the
mutated other corner replaces the one at position (j+1) % len and
position j is popped (j unchanged), otherwise j advances. -/
def mergeLoop (paths : List (List Segment)) (corners : List Corner) (j : ℕ) :
    Except PyError (List Corner) :=
  if h : j < corners.length then
    let other := (j + 1) % corners.length
    match merge paths (corners.getD j dcorner) (corners.getD other dcorner) with
    | .error e => .error e
    | .ok none => mergeLoop paths corners (j + 1)
    | .ok (some m) => mergeLoop paths ((corners.set other m).eraseIdx j) j
  else .ok corners
termination_by corners.length - j
decreasing_by
  · omega
  · have hlen : ((corners.set ((j + 1) % corners.length) m).eraseIdx j).length + 1 =
        corners.length := by
      rw [List.length_eraseIdx_add_one (by simpa using h)]
      simp
    omega

/-- The candidate corners of subpath i: a Corner at every segment end,
kept when the absolute turning angle exceeds MIN_CORNER_ANGLE
(get_corners, lines 178-182). -/
def candidateCorners (paths : List (List Segment)) (i : ℕ) : List Corner :=
  (List.range (paths.getD i []).length).filterMap fun j =>
    let corner := mkCorner paths (i, j)
    if |corner.angle| > MIN_CORNER_ANGLE then some corner else none

/-- get_corners over an explicit list of subpath indices: candidate
corners of each subpath are run through the merge pass and the survivors
collected (the Python dict keyed by corner.index is modelled as the list
of its values in insertion order). -/
def get_corners_go (paths : List (List Segment)) : List ℕ → Except PyError (List Corner)
  | [] => .ok []
  | i :: rest =>
    match mergeLoop paths (candidateCorners paths i) 0 with
    | .error e => .error e
    | .ok cs =>
      match get_corners_go paths rest with
      | .error e => .error e
      | .ok more => .ok (cs ++ more)

/-- get_corners. -/
def get_corners (paths : List (List Segment)) : Except PyError (List Corner) :=
  get_corners_go paths (List.range paths.length)

/-- Corner._run_classifier, on the seven features (features 4 and 5 are
unused by the source's inequalities but kept for fidelity). Returns the
exact constants 0, 1/2, 3/4, 1 as rationals. -/
def run_classifier (f0 f1 f2 f3 f4 f5 f6 : ℝ) : ℚ :=
  let alignment := |f0| + |f1|
  let incidence := |(|f2| + |f3|) - Real.pi|
  let short := f6 < MAX_BRIDGE_DISTANCE / 2
  let clean := alignment < 0.1 * Real.pi ∨ alignment + incidence < 0.2 * Real.pi
  let cross := f0 * f1 > 0 ∧ f0 * f2 < 0 ∧ alignment < Real.pi ∧
    |f2| + |f3| > 0.5 * Real.pi
  if f2 * f3 > 0 ∧ (clean ∨ (short ∧ cross)) then
    if clean then (if short then 1 else 3 / 4) else 1 / 2
  else 0

/-- Corner._try_connect. Returns 1 (Python True) at coincident points,
0 beyond MAX_BRIDGE_DISTANCE, and otherwise the classifier result on the
seven features; `reverse` swaps the other corner's tangents. -/
def try_connect (self other : Corner) (reverse : Bool) : ℚ :=
  if other.point = self.point then 1
  else
    let diff := other.point - self.point
    let length := Complex.abs diff
    if length > MAX_BRIDGE_DISTANCE then 0
    else
      let others := if reverse then (other.tangent2, other.tangent1)
        else (other.tangent1, other.tangent2)
      run_classifier
        (get_angle self.tangent1 diff)
        (get_angle diff others.2)
        (get_angle diff self.tangent2)
        (get_angle others.1 diff)
        self.angle
        other.angle
        length

/-- Corner.connect: 0 (Python False) on equal indices; one classifier
query within a subpath; the max over both tangent orientations across
subpaths. -/
def connect (self other : Corner) : ℚ :=
  if other.index = self.index then 0
  else if other.index.1 = self.index.1 then try_connect self other false
  else max (try_connect self other false) (try_connect self other true)

/-- A bridge candidate: (confidence, index1, index2). -/
abbrev Cand : Type := ℚ × (ℕ × ℕ) × (ℕ × ℕ)

/-- The candidate generation loop of get_bridges: every ordered pair of
corners with positive confidence. -/
def candidatesOf (corners : List Corner) : List Cand :=
  corners.flatMap fun corner =>
    corners.filterMap fun other =>
      let confidence := connect corner other
      if confidence > 0 then some (confidence, corner.index, other.index) else none

/-- Strict lexicographic order on index pairs, matching Python tuple
comparison. -/
def tupLtB (a b : ℕ × ℕ) : Bool :=
  a.1 < b.1 || (a.1 = b.1 && a.2 < b.2)

/-- Strict lexicographic order on candidates (confidence, index1,
index2), matching Python tuple comparison. -/
def candLtB (x y : Cand) : Bool :=
  decide (x.1 < y.1) ||
    (decide (x.1 = y.1) &&
      (tupLtB x.2.1 y.2.1 || (decide (x.2.1 = y.2.1) && tupLtB x.2.2 y.2.2)))

/-- Insert a candidate into a descending-sorted list, keeping it sorted. -/
def insertDesc (x : Cand) : List Cand → List Cand
  | [] => [x]
  | y :: tl => if candLtB y x then x :: y :: tl else y :: insertDesc x tl

/-- `candidates.sort(reverse=True)`: sort descending by the Python tuple
order. -/
def sortDesc : List Cand → List Cand
  | [] => []
  | x :: tl => insertDesc x (sortDesc tl)

/-- The projection parameter computed inside should_split for a corner at
`p` against the segment from `start` along `diff`. -/
def tparam (start diff p : ℂ) : ℝ :=
  ((p.re - start.re) * diff.re + (p.im - start.im) * diff.im) / Complex.abs diff ^ 2

/-- The corner scan of should_split: skip the two endpoint indices; for
any other corner compute the projection parameter t (float division by
zero raises when the endpoints coincide) and report True when the corner
projects into the open segment within MAX_CORNER_MERGE_DISTANCE of the
line. -/
def shouldSplitGo (start diff : ℂ) (index1 index2 : ℕ × ℕ) :
    List Corner → Except PyError Bool
  | [] => .ok false
  | corner :: rest =>
    if corner.index = index1 ∨ corner.index = index2 then
      shouldSplitGo start diff index1 index2 rest
    else if Complex.abs diff ^ 2 = 0 then .error .zeroDivision
    else
      let t := tparam start diff corner.point
      if 0 < t ∧ t < 1 ∧
          Complex.abs (start + (t : ℂ) * diff - corner.point) < MAX_CORNER_MERGE_DISTANCE
      then .ok true
      else shouldSplitGo start diff index1 index2 rest

/-- should_split: look the two endpoint corners up in the corner map and
scan all corners for one sitting on the prospective bridge. -/
def should_split (corners : List Corner) (index1 index2 : ℕ × ℕ) :
    Except PyError Bool :=
  match corners.find? (fun c => c.index = index1),
      corners.find? (fun c => c.index = index2) with
  | some c1, some c2 =>
    shouldSplitGo c1.point (c2.point - c1.point) index1 index2 corners
  | _, _ => .error .keyError

/-- The greedy selection loop of get_bridges: walk the sorted candidates;
skip a candidate when the already-bridged neighbourhoods of its two
endpoints intersect (short-circuiting before should_split, as Python's
`or` does) or when should_split vetoes it; otherwise add the pair in both
orientations. -/
def selectLoop (corners : List Corner) :
    List Cand → Finset ((ℕ × ℕ) × (ℕ × ℕ)) → Except PyError (Finset ((ℕ × ℕ) × (ℕ × ℕ)))
  | [], result => .ok result
  | (_, index1, index2) :: rest, result =>
    let other1 := (result.filter fun p => p.1 = index1).image Prod.snd
    let other2 := (result.filter fun p => p.1 = index2).image Prod.snd
    if (other1 ∩ other2).Nonempty then selectLoop corners rest result
    else
      match should_split corners index1 index2 with
      | .error e => .error e
      | .ok true => selectLoop corners rest result
      | .ok false =>
        selectLoop corners rest (insert (index1, index2) (insert (index2, index1) result))

/-- get_bridges. -/
def get_bridges (corners : List Corner) :
    Except PyError (Finset ((ℕ × ℕ) × (ℕ × ℕ))) :=
  selectLoop corners (sortDesc (candidatesOf corners)) ∅

/-- The grouping loop of break_path: `cur` is the current subpath in
reverse order (its head is the most recently appended segment); a new
subpath starts whenever the next segment's start does not meet the
current subpath's last end. -/
def breakGo : List Segment → List Segment → List (List Segment)
  | cur, [] => [cur.reverse]
  | cur, e :: tl =>
    if e.start ≠ (cur.headD dseg).stop then cur.reverse :: breakGo [e] tl
    else breakGo (e :: cur) tl

/-- break_path: split a segment list into maximal contiguous subpaths. -/
def break_path (path : List Segment) : List (List Segment) :=
  match path with
  | [] => []
  | s :: rest => breakGo [s] rest

/-- The geometric core of augment_glyph: drop degenerate segments
(start == end), fail with InputError when nothing remains (the source's
`assert path`), then split into subpaths and compute corners and
bridges. -/
def augment_glyph (segs : List Segment) :
    Except PyError (List Corner × Finset ((ℕ × ℕ) × (ℕ × ℕ))) :=
  let path := segs.filter fun s => s.start ≠ s.stop
  if path.isEmpty then .error .inputError
  else
    match get_corners (break_path path) with
    | .error e => .error e
    | .ok corners =>
      match get_bridges corners with
      | .error e => .error e
      | .ok bridges => .ok (corners, bridges)

/-! Spec-side definitions, written from the words of the specification's
claims so that they can be compared with the source-derived definitions
above. -/

/-- The spec's tangentIn rule for the segment at position j: end - start,
unless the segment is a quadratic curve whose control point differs from
its end point, in which case end - control. -/
def spec_tangent_in (path : List Segment) (j : ℕ) : ℂ :=
  match path.getD j dseg with
  | .line s e => e - s
  | .quad s c e => if c ≠ e then e - c else e - s

/-- The claimed tangentOut rule for the segment following position j:
end - start, unless that segment is a quadratic curve whose control point
differs from its START point, in which case control - start. -/
def spec_tangent_out_claim (path : List Segment) (j : ℕ) : ℂ :=
  match path.getD ((j + 1) % path.length) dseg with
  | .line s e => e - s
  | .quad s c e => if c ≠ s then c - s else e - s

/-- The amended tangentOut rule: end - start, unless the next segment is
a quadratic curve whose control point differs from its END point, in
which case control - start. -/
def spec_tangent_out_amended (path : List Segment) (j : ℕ) : ℂ :=
  match path.getD ((j + 1) % path.length) dseg with
  | .line s e => e - s
  | .quad s c e => if c ≠ e then c - s else e - s

/-- The seven classifier features of a (self, other, reverse) query, as
listed in the spec (section 4.3). -/
def spec_features (self other : Corner) (reverse : Bool) : ℝ × ℝ × ℝ × ℝ × ℝ × ℝ × ℝ :=
  let diff := other.point - self.point
  let others := if reverse then (other.tangent2, other.tangent1)
    else (other.tangent1, other.tangent2)
  (get_angle self.tangent1 diff,
   get_angle diff others.2,
   get_angle diff self.tangent2,
   get_angle others.1 diff,
   self.angle,
   other.angle,
   Complex.abs diff)

/-- The decision rule exactly as the claim states it: confidence is
(1 if short else 3/4) when f2*f3 > 0 and clean holds; 1/2 when f2*f3 > 0,
clean fails, and short and cross hold; 0 in every other case. -/
def spec_decision (self other : Corner) (reverse : Bool) : ℚ :=
  let f := spec_features self other reverse
  let alignment := |f.1| + |f.2.1|
  let incidence := |(|f.2.2.1| + |f.2.2.2.1|) - Real.pi|
  let short := f.2.2.2.2.2.2 < MAX_BRIDGE_DISTANCE / 2
  let clean := alignment < 0.1 * Real.pi ∨ alignment + incidence < 0.2 * Real.pi
  let cross := f.1 * f.2.1 > 0 ∧ f.1 * f.2.2.1 < 0 ∧ alignment < Real.pi ∧
    |f.2.2.1| + |f.2.2.2.1| > 0.5 * Real.pi
  if f.2.2.1 * f.2.2.2.1 > 0 ∧ clean then (if short then 1 else 3 / 4)
  else if f.2.2.1 * f.2.2.2.1 > 0 ∧ short ∧ cross then 1 / 2
  else 0

/-- Claim C1's confidence rule, word for word: 0 beyond
MAX_BRIDGE_DISTANCE, otherwise the decision rule on the seven features
(no special case for coincident points). -/
def spec_confidence_claim (self other : Corner) (reverse : Bool) : ℚ :=
  if Complex.abs (other.point - self.point) > MAX_BRIDGE_DISTANCE then 0
  else spec_decision self other reverse

/-! General lemmas about the angle computation. -/

lemma mk_zero_zero : (⟨0, 0⟩ : ℂ) = 0 := Complex.ext rfl rfl

lemma mk_eq_ofReal (x : ℝ) : (⟨x, 0⟩ : ℂ) = (x : ℂ) := Complex.ext rfl rfl

/-- atan2 0 x = 0 for nonnegative x. -/
lemma atan2_zero_nonneg (x : ℝ) (hx : 0 ≤ x) : atan2 0 x = 0 := by
  rw [atan2, mk_eq_ofReal]
  exact Complex.arg_ofReal_of_nonneg hx

/-- atan2 0 x = π for negative x. -/
lemma atan2_zero_neg (x : ℝ) (hx : x < 0) : atan2 0 x = Real.pi := by
  have h : (⟨x, 0⟩ : ℂ) = ((-x : ℝ) : ℂ) * (-1) := by
    apply Complex.ext <;> simp
  rw [atan2, h, Complex.arg_real_mul (-1) (by linarith), Complex.arg_neg_one]

/-- atan2 y 0 = π/2 for positive y. -/
lemma atan2_pos_zero (y : ℝ) (hy : 0 < y) : atan2 y 0 = Real.pi / 2 := by
  have h : (⟨0, y⟩ : ℂ) = ((y : ℝ) : ℂ) * I := by
    apply Complex.ext <;> simp
  rw [atan2, h, Complex.arg_real_mul I hy, Complex.arg_I]

/-- atan2 y 0 = -(π/2) for negative y. -/
lemma atan2_neg_zero (y : ℝ) (hy : y < 0) : atan2 y 0 = -(Real.pi / 2) := by
  have h : (⟨0, y⟩ : ℂ) = ((-y : ℝ) : ℂ) * (-I) := by
    apply Complex.ext <;> simp
  rw [atan2, h, Complex.arg_real_mul (-I) (by linarith), Complex.arg_neg_I]

/-- The angle the code computes, arg(v1/v2), is atan2 applied to the
cross product of v2 with v1 and the dot product of v1 with v2 (NOT, as
the spec claims, to cross(v1, v2)); the identity also covers the
zero-vector convention since atan2 0 0 = 0. -/
lemma get_angle_atan2 (v1 v2 : ℂ) :
    get_angle v1 v2 = atan2 (crossp v2 v1) (dotp v1 v2) := by
  by_cases h1 : v1 = 0
  · subst h1
    simp only [get_angle, if_pos (Or.inl rfl), crossp, dotp]
    simp [atan2, mk_zero_zero, Complex.arg_zero]
  by_cases h2 : v2 = 0
  · subst h2
    simp only [get_angle, if_pos (Or.inr rfl), crossp, dotp]
    simp [atan2, mk_zero_zero, Complex.arg_zero]
  have hs : 0 < Complex.normSq v2 := Complex.normSq_pos.mpr h2
  have hdiv : v1 / v2 =
      (((Complex.normSq v2)⁻¹ : ℝ) : ℂ) * ⟨dotp v1 v2, crossp v2 v1⟩ := by
    apply Complex.ext
    · rw [Complex.div_re, Complex.re_ofReal_mul]
      show _ = (Complex.normSq v2)⁻¹ * dotp v1 v2
      rw [dotp]
      field_simp
    · rw [Complex.div_im, Complex.im_ofReal_mul]
      show _ = (Complex.normSq v2)⁻¹ * crossp v2 v1
      rw [crossp]
      field_simp
      ring
  rw [get_angle, if_neg (by tauto), hdiv,
    Complex.arg_real_mul _ (inv_pos.mpr hs)]
  rfl

/-- The angle always lies in (-π, π]. -/
lemma get_angle_mem_Ioc (v1 v2 : ℂ) :
    get_angle v1 v2 ∈ Set.Ioc (-Real.pi) Real.pi := by
  rw [get_angle]
  split
  · constructor
    · linarith [Real.pi_pos]
    · linarith [Real.pi_pos]
  · exact Complex.arg_mem_Ioc _

/-- The zero-vector convention: the angle is 0 when either vector is 0. -/
lemma get_angle_zero (v1 v2 : ℂ) (h : v1 = 0 ∨ v2 = 0) : get_angle v1 v2 = 0 := by
  rw [get_angle, if_pos h]

/-! Helpers for evaluating Complex.abs at concrete points. -/

/-- abs z = r once re² + im² = r². -/
lemma abs_eval (z : ℂ) (r : ℝ) (hr : 0 ≤ r) (h : z.re * z.re + z.im * z.im = r * r) :
    Complex.abs z = r := by
  rw [Complex.abs_apply, Complex.normSq_apply, h, Real.sqrt_mul_self hr]

/-- abs z ≤ r once re² + im² ≤ r². -/
lemma abs_le_eval (z : ℂ) (r : ℝ) (hr : 0 ≤ r) (h : z.re * z.re + z.im * z.im ≤ r * r) :
    Complex.abs z ≤ r := by
  rw [Complex.abs_apply, Complex.normSq_apply]
  calc Real.sqrt (z.re * z.re + z.im * z.im) ≤ Real.sqrt (r * r) := Real.sqrt_le_sqrt h
  _ = r := Real.sqrt_mul_self hr

/-! A concrete closed contour used to exercise the corner machinery: a
line along the x-axis followed by three quadratic curves leading back,
smooth (angle 0) at the two curve-curve junctions and sharp (angle -π/2)
at (10,0) and (0,0). All chord lengths are 10. -/

/-- Line from (0,0) to (10,0). -/
def seg0 : Segment := .line 0 10

/-- Quadratic from (10,0) up to (16,8), control (10,8). -/
def seg1 : Segment := .quad 10 (10 + 8*I) (16 + 8*I)

/-- Quadratic from (16,8) left to (6,8), control (22,8). -/
def seg2 : Segment := .quad (16 + 8*I) (22 + 8*I) (6 + 8*I)

/-- Quadratic from (6,8) back to (0,0), control (0,8). -/
def seg3 : Segment := .quad (6 + 8*I) (8*I) 0

/-- The four-segment closed contour. -/
def pathC4 : List Segment := [seg0, seg1, seg2, seg3]

/-- The contour as a one-subpath path list. -/
def pathsC4 : List (List Segment) := [pathC4]

/-- The corner at (10,0): end of seg0, tangents (10,0) and (0,8). -/
def c0def : Corner := ⟨(0, 0), 10, 10, 8*I, -(Real.pi/2)⟩

/-- The corner at (0,0): end of seg3, tangents (0,-8) and (10,0). -/
def c3def : Corner := ⟨(0, 3), 0, -(8*I), 10, -(Real.pi/2)⟩

/-- The corner left after one merge pass over [c0def, c3def]: c3def
merged into c0def, which keeps its index and point, takes c3def's
tangent1, and gets the recomputed angle π. -/
def mC4 : Corner := ⟨(0, 0), 10, -(8*I), 8*I, Real.pi⟩

lemma ga_c0 : get_angle 10 (8*I) = -(Real.pi/2) := by
  rw [get_angle_atan2]
  have hc : crossp (8*I) 10 = -80 := by simp [crossp]; norm_num
  have hd : dotp 10 (8*I) = 0 := by simp [dotp]
  rw [hc, hd, atan2_neg_zero _ (by norm_num)]

lemma ga_j1 : get_angle 6 6 = 0 := by
  rw [get_angle_atan2]
  have hc : crossp 6 6 = 0 := by simp [crossp]
  have hd : dotp 6 6 = 36 := by norm_num [dotp]
  rw [hc, hd, atan2_zero_nonneg _ (by norm_num)]

lemma ga_j2 : get_angle (-16) (-6) = 0 := by
  rw [get_angle_atan2]
  have hc : crossp (-6) (-16) = 0 := by simp [crossp]
  have hd : dotp (-16) (-6) = 96 := by norm_num [dotp]
  rw [hc, hd, atan2_zero_nonneg _ (by norm_num)]

lemma ga_c3 : get_angle (-(8*I)) 10 = -(Real.pi/2) := by
  rw [get_angle_atan2]
  have hc : crossp 10 (-(8*I)) = -80 := by simp [crossp]; norm_num
  have hd : dotp (-(8*I)) 10 = 0 := by simp [dotp]
  rw [hc, hd, atan2_neg_zero _ (by norm_num)]

lemma ga_m : get_angle (-(8*I)) (8*I) = Real.pi := by
  rw [get_angle_atan2]
  have hc : crossp (8*I) (-(8*I)) = 0 := by simp [crossp]
  have hd : dotp (-(8*I)) (8*I) = -64 := by simp [dotp]; norm_num
  rw [hc, hd, atan2_zero_neg _ (by norm_num)]

lemma gt_c0 : get_tangents pathC4 0 = (10, 8*I) := by
  have h1 : (10 + 8*I : ℂ) ≠ 16 + 8*I := by simp [Complex.ext_iff]
  simp only [get_tangents, pathC4, seg0, seg1, List.getD_cons_zero, List.length_cons,
    List.length_nil]
  norm_num [List.getD_cons_succ, List.getD_cons_zero, h1]


lemma gt_c1 : get_tangents pathC4 1 = (6, 6) := by
  have h1 : (16 + 8*I : ℂ) ≠ 10 + 8*I := by simp [Complex.ext_iff]
  have h2 : (22 + 8*I : ℂ) ≠ 6 + 8*I := by simp [Complex.ext_iff]
  simp only [get_tangents, pathC4, seg1, seg2, List.length_cons, List.length_nil]
  norm_num [List.getD_cons_succ, List.getD_cons_zero, h1, h2]

lemma gt_c2 : get_tangents pathC4 2 = (-16, -6) := by
  have h1 : (6 + 8*I : ℂ) ≠ 22 + 8*I := by simp [Complex.ext_iff]
  have h2 : (8*I : ℂ) ≠ 0 := by simp
  simp only [get_tangents, pathC4, seg2, seg3, List.length_cons, List.length_nil]
  norm_num [List.getD_cons_succ, List.getD_cons_zero, h1, h2]

lemma gt_c3 : get_tangents pathC4 3 = (-(8*I), 10) := by
  have h1 : (0 : ℂ) ≠ 8*I := by simp
  simp only [get_tangents, pathC4, seg3, seg0, List.length_cons, List.length_nil]
  norm_num [List.getD_cons_succ, List.getD_cons_zero, h1]

lemma mk_c0 : mkCorner pathsC4 (0, 0) = c0def := by
  simp only [mkCorner, pathsC4, List.getD_cons_zero, gt_c0, ga_c0, c0def]
  rfl

lemma mk_c3 : mkCorner pathsC4 (0, 3) = c3def := by
  simp only [mkCorner, pathsC4, List.getD_cons_zero, gt_c3, ga_c3, c3def]
  rfl

lemma ang_c1 : (mkCorner pathsC4 (0, 1)).angle = 0 := by
  simp only [mkCorner, pathsC4, List.getD_cons_zero, gt_c1, ga_j1]

lemma ang_c2 : (mkCorner pathsC4 (0, 2)).angle = 0 := by
  simp only [mkCorner, pathsC4, List.getD_cons_zero, gt_c2, ga_j2]

lemma big_angle : |(-(Real.pi/2))| > MIN_CORNER_ANGLE := by
  rw [abs_neg, abs_eq_self.mpr (by positivity : (0:ℝ) ≤ Real.pi/2), MIN_CORNER_ANGLE]
  nlinarith [Real.pi_pos]

lemma small_angle : ¬ (|(0 : ℝ)| > MIN_CORNER_ANGLE) := by
  rw [abs_zero, MIN_CORNER_ANGLE]
  nlinarith [Real.pi_pos]

lemma cands_C4 : candidateCorners pathsC4 0 = [c0def, c3def] := by
  have hr : List.range (pathsC4.getD 0 []).length = [0, 1, 2, 3] := rfl
  unfold candidateCorners
  rw [hr]
  simp only [List.filterMap_cons, List.filterMap_nil]
  rw [if_pos, if_neg, if_neg, if_pos]
  · rw [mk_c0, mk_c3]
  · rw [mk_c3]
    exact big_angle
  · rw [ang_c2]
    exact small_angle
  · rw [ang_c1]
    exact small_angle
  · rw [mk_c0]
    exact big_angle

lemma len_seg0 : segLen seg0 = 10 := by
  rw [segLen, seg0]
  apply abs_eval _ _ (by norm_num)
  simp [Segment.stop, Segment.start]

lemma len_seg1 : segLen seg1 = 10 := by
  rw [segLen, seg1]
  apply abs_eval _ _ (by norm_num)
  simp [Segment.stop, Segment.start]
  norm_num

lemma len_seg2 : segLen seg2 = 10 := by
  rw [segLen, seg2]
  apply abs_eval _ _ (by norm_num)
  simp [Segment.stop, Segment.start]
  norm_num

lemma len_seg3 : segLen seg3 = 10 := by
  rw [segLen, seg3]
  apply abs_eval _ _ (by norm_num)
  simp [Segment.stop, Segment.start]
  norm_num

lemma walk_0_3 : walkDist pathC4 0 3 = 30 := by
  have h : pathC4.length = 4 := rfl
  rw [walkDist, h]
  rw [walkDistGo, walkDistGo, walkDistGo, walkDistGo]
  norm_num [pathC4, List.getD_cons_succ, List.getD_cons_zero, len_seg1, len_seg2, len_seg3]

lemma walk_3_0 : walkDist pathC4 3 0 = 10 := by
  have h : pathC4.length = 4 := rfl
  rw [walkDist, h]
  rw [walkDistGo, walkDistGo]
  norm_num [pathC4, List.getD_cons_succ, List.getD_cons_zero, len_seg0]

lemma walk_self (path : List Segment) (j : ℕ) : walkDist path j j = 0 := by
  rw [walkDist]
  cases h : path.length with
  | zero => rw [walkDistGo]
  | succ n => rw [walkDistGo, if_pos rfl]

lemma abs_0_10 : Complex.abs ((0:ℂ) - 10) = 10 := by
  apply abs_eval _ _ (by norm_num)
  simp

lemma abs_10_0 : Complex.abs ((10:ℂ) - 0) = 10 := by
  apply abs_eval _ _ (by norm_num)
  simp

lemma merge_c0_c3 : merge pathsC4 c0def c3def = .ok none := by
  have hpath : pathsC4.getD 0 [] = pathC4 := rfl
  have hpath2 : (pathsC4[0]?).getD [] = pathC4 := rfl
  norm_num [merge, c0def, c3def, abs_0_10, MAX_CORNER_MERGE_DISTANCE, hpath, hpath2,
    walk_0_3]

lemma merge_c3_c0 : merge pathsC4 c3def c0def = .ok (some mC4) := by
  have hpath : pathsC4.getD 0 [] = pathC4 := rfl
  have hpath2 : (pathsC4[0]?).getD [] = pathC4 := rfl
  norm_num [merge, c0def, c3def, mC4, abs_10_0, MAX_CORNER_MERGE_DISTANCE, hpath, hpath2,
    walk_3_0, ga_m]

lemma merge_m_m : merge pathsC4 mC4 mC4 = .ok (some mC4) := by
  have hpath : pathsC4.getD 0 [] = pathC4 := rfl
  norm_num [merge, mC4, MAX_CORNER_MERGE_DISTANCE, hpath, walk_self, ga_m]


lemma run1_C4 : mergeLoop pathsC4 [c0def, c3def] 0 = .ok [mC4] := by
  rw [mergeLoop]
  rw [dif_pos (by norm_num : (0:ℕ) < [c0def, c3def].length)]
  norm_num [List.getD_cons_zero, List.getD_cons_succ, merge_c0_c3]
  rw [mergeLoop]
  rw [dif_pos (by norm_num : (1:ℕ) < [c0def, c3def].length)]
  norm_num [List.getD_cons_zero, List.getD_cons_succ, merge_c3_c0]
  rw [mergeLoop]
  norm_num

lemma run2_C4 : mergeLoop pathsC4 [mC4] 0 = .ok [] := by
  rw [mergeLoop]
  rw [dif_pos (by norm_num : (0:ℕ) < [mC4].length)]
  norm_num [List.getD_cons_zero, merge_m_m]
  rw [mergeLoop]
  norm_num


/-- Merging a corner with itself always succeeds: both distances are 0. -/
lemma merge_self_eq (p : List (List Segment)) (c : Corner) :
    merge p c c = .ok (some ⟨c.index, c.point, c.tangent1, c.tangent2,
      get_angle c.tangent1 c.tangent2⟩) := by
  rw [merge]
  rw [if_neg (by simp)]
  rw [if_neg (by simp [MAX_CORNER_MERGE_DISTANCE])]
  rw [if_neg (by rw [walk_self, MAX_CORNER_MERGE_DISTANCE]; norm_num)]
  rw [if_neg (lt_irrefl _)]

/-- A merge pass on a single-corner list self-merges the corner away and
returns the empty list. -/
lemma mergeLoop_singleton (p : List (List Segment)) (c : Corner) :
    mergeLoop p [c] 0 = .ok [] := by
  rw [mergeLoop, dif_pos (by norm_num : (0:ℕ) < [c].length)]
  norm_num [List.getD_cons_zero, merge_self_eq]
  rw [mergeLoop]
  norm_num


/-! Concrete material for claims C2 and C10. -/

/-- Two-segment subpath whose second segment is a quadratic with control
point equal to its start point (and different from its end point). -/
def pathC2 : List Segment := [Segment.line 0 10, Segment.quad 10 10 (10 + 10*I)]

/-- Two-segment closed subpath (a line out and a quadratic back) with
exactly one sharp corner, at the end of segment 1. -/
def pathC10 : List Segment := [Segment.line 0 10, Segment.quad 10 20 0]

/-- The single candidate corner of pathC10. -/
def cC10 : Corner := ⟨(0, 1), 0, -20, 10, Real.pi⟩

lemma ga_20 : get_angle (-20) 10 = Real.pi := by
  rw [get_angle_atan2]
  have hc : crossp 10 (-20) = 0 := by simp [crossp]
  have hd : dotp (-20) 10 = -200 := by simp [dotp]; norm_num
  rw [hc, hd, atan2_zero_neg _ (by norm_num)]

lemma ga_10_10 : get_angle 10 10 = 0 := by
  rw [get_angle_atan2]
  have hc : crossp 10 10 = 0 := by simp [crossp]
  have hd : dotp 10 10 = 100 := by simp [dotp]; norm_num
  rw [hc, hd, atan2_zero_nonneg _ (by norm_num)]

lemma gt_C10_0 : get_tangents pathC10 0 = (10, 10) := by
  have h : (20 : ℂ) ≠ 0 := by norm_num
  simp only [get_tangents, pathC10, List.length_cons, List.length_nil]
  norm_num [List.getD_cons_succ, List.getD_cons_zero, h]

lemma gt_C10_1 : get_tangents pathC10 1 = (-20, 10) := by
  have h : (0 : ℂ) ≠ 20 := by norm_num
  simp only [get_tangents, pathC10, List.length_cons, List.length_nil]
  norm_num [List.getD_cons_succ, List.getD_cons_zero, h]

lemma big_angle_pi : |Real.pi| > MIN_CORNER_ANGLE := by
  rw [abs_eq_self.mpr (le_of_lt Real.pi_pos), MIN_CORNER_ANGLE]
  nlinarith [Real.pi_pos]

lemma cands_C10 : candidateCorners [pathC10] 0 = [cC10] := by
  have hr : List.range (([pathC10] : List (List Segment)).getD 0 []).length = [0, 1] := rfl
  unfold candidateCorners
  rw [hr]
  simp only [List.filterMap_cons, List.filterMap_nil]
  have h0 : (mkCorner [pathC10] (0, 0)).angle = 0 := by
    simp only [mkCorner, List.getD_cons_zero, gt_C10_0, ga_10_10]
  have h1 : mkCorner [pathC10] (0, 1) = cC10 := by
    simp only [mkCorner, List.getD_cons_zero, gt_C10_1, ga_20, cC10]
    rfl
  rw [if_neg, if_pos, h1]
  · rw [h1]
    exact big_angle_pi
  · rw [h0]
    exact small_angle

/-- C2 counterexample: for the quadratic segment of pathC2 the control
point equals the start point but differs from the end point, so the code
takes tangentOut = control - start = 0 while the claimed rule (which
tests the control point against the START point) yields end - start =
(0,10); the stored tangentOut differs from the claimed one. -/
theorem tangent_out_claim_counterexample :
    (mkCorner [pathC2] (0, 0)).tangent2 ≠ spec_tangent_out_claim pathC2 0 := by
  have hcode : (mkCorner [pathC2] (0, 0)).tangent2 = 0 := by
    have h : (10 : ℂ) ≠ 10 + 10*I := by simp [Complex.ext_iff]
    simp only [mkCorner, List.getD_cons_zero, get_tangents, pathC2,
      List.length_cons, List.length_nil]
    norm_num [List.getD_cons_succ, List.getD_cons_zero, h]
  have hspec : spec_tangent_out_claim pathC2 0 = 10*I := by
    simp only [spec_tangent_out_claim, pathC2, List.length_cons, List.length_nil]
    norm_num [List.getD_cons_succ, List.getD_cons_zero]
  rw [hcode, hspec]
  simp [Complex.ext_iff]

/-- C2 amended: a corner's tangentIn is end(s) - start(s) except for a
quadratic whose control differs from its end point (then end - control),
and its tangentOut is end(s_next) - start(s_next) except for a quadratic
s_next whose control differs from its END point (then control - start),
with s_next the cyclically next segment. -/
theorem corner_tangents_amended (paths : List (List Segment)) (idx : ℕ × ℕ) :
    (mkCorner paths idx).tangent1 = spec_tangent_in (paths.getD idx.1 []) idx.2 ∧
    (mkCorner paths idx).tangent2 = spec_tangent_out_amended (paths.getD idx.1 []) idx.2 := by
  constructor
  · simp only [mkCorner, get_tangents, spec_tangent_in]
    cases (paths.getD idx.1 []).getD idx.2 dseg with
    | line s e => rfl
    | quad s c e =>
      rcases eq_or_ne c e with h | h
      · rw [h]
      · show (if e ≠ c then e - c else e - s) = if c ≠ e then e - c else e - s
        rw [if_pos (Ne.symm h), if_pos h]
  · simp only [mkCorner, get_tangents, spec_tangent_out_amended]


/-- C3 counterexample: for the corner of pathsC4 at index (0,0) the
stored angle is -π/2 but atan2(cross(tangentIn, tangentOut),
dot(tangentIn, tangentOut)) is +π/2: the code computes the argument of
tangentIn/tangentOut, whose imaginary part is cross(tangentOut,
tangentIn), i.e. the sign of the claimed formula is reversed. -/
theorem corner_angle_claim_counterexample :
    (mkCorner pathsC4 (0, 0)).angle ≠
      atan2 (crossp (mkCorner pathsC4 (0, 0)).tangent1 (mkCorner pathsC4 (0, 0)).tangent2)
        (dotp (mkCorner pathsC4 (0, 0)).tangent1 (mkCorner pathsC4 (0, 0)).tangent2) := by
  rw [mk_c0]
  have hc : crossp c0def.tangent1 c0def.tangent2 = 80 := by
    simp [crossp, c0def]
    norm_num
  have hd : dotp c0def.tangent1 c0def.tangent2 = 0 := by
    simp [dotp, c0def]
  rw [hc, hd, atan2_pos_zero _ (by norm_num)]
  show -(Real.pi/2) ≠ Real.pi/2
  intro h
  nlinarith [Real.pi_pos]

/-- C3 amended: every corner's stored angle equals
atan2(cross(tangentOut, tangentIn), dot(tangentIn, tangentOut)) — the
arguments of cross swapped relative to the claim — always lies in
(-π, π], and is 0 whenever either tangent is the zero vector. -/
theorem corner_angle_amended (paths : List (List Segment)) (idx : ℕ × ℕ) :
    (mkCorner paths idx).angle =
      atan2 (crossp (mkCorner paths idx).tangent2 (mkCorner paths idx).tangent1)
        (dotp (mkCorner paths idx).tangent1 (mkCorner paths idx).tangent2) ∧
    (mkCorner paths idx).angle ∈ Set.Ioc (-Real.pi) Real.pi ∧
    (((mkCorner paths idx).tangent1 = 0 ∨ (mkCorner paths idx).tangent2 = 0) →
      (mkCorner paths idx).angle = 0) := by
  refine ⟨?_, ?_, ?_⟩
  · exact get_angle_atan2 _ _
  · exact get_angle_mem_Ioc _ _
  · exact get_angle_zero _ _

lemma mkCorner_nil_tangent1 : (mkCorner [] (0, 0)).tangent1 = 0 := by
  simp [mkCorner, get_tangents, dseg]

/-- C3 witness: a concrete corner with zero tangentIn whose angle the
amended theorem evaluates to 0. -/
theorem corner_angle_amended_witness :
    (mkCorner [] (0, 0)).tangent1 = 0 ∧ (mkCorner [] (0, 0)).angle = 0 :=
  ⟨mkCorner_nil_tangent1,
    (corner_angle_amended [] (0, 0)).2.2 (Or.inl mkCorner_nil_tangent1)⟩

/-- C4 counterexample: for the contour pathsC4 the candidate corners are
[c0def, c3def]; one complete merge pass outputs the single corner [mC4]
(the run ends by merging the last corner into the first), and a second
complete run on that output self-merges the remaining corner away,
returning [] — so the second run does NOT leave the list unchanged. -/
theorem merge_pass_not_idempotent :
    candidateCorners pathsC4 0 = [c0def, c3def] ∧
    mergeLoop pathsC4 [c0def, c3def] 0 = .ok [mC4] ∧
    mergeLoop pathsC4 [mC4] 0 = .ok [] ∧
    ([] : List Corner) ≠ [mC4] :=
  ⟨cands_C4, run1_C4, run2_C4, by simp⟩

/-- C4 amended: the merge pass is not idempotent in general: whenever a
complete run outputs a single-corner list, a second run on that output
merges the corner with itself and removes it, returning the empty list
(which differs from the single-corner input). Outputs of other lengths
are not covered by this amendment. -/
theorem merge_pass_singleton_rerun (paths : List (List Segment))
    (corners : List Corner) (c : Corner)
    (h : mergeLoop paths corners 0 = .ok [c]) :
    mergeLoop paths [c] 0 = .ok [] ∧ ([] : List Corner) ≠ [c] :=
  ⟨mergeLoop_singleton paths c, by simp⟩

/-- C4 witness: the amended theorem applied to the concrete first run on
pathsC4's candidate corners. -/
theorem merge_pass_singleton_rerun_witness :
    mergeLoop pathsC4 [mC4] 0 = .ok [] ∧ ([] : List Corner) ≠ [mC4] :=
  merge_pass_singleton_rerun pathsC4 [c0def, c3def] mC4 run1_C4

/-- C9: merging two corners on different subpaths always fails loudly
with the cross-subpath precondition violation, whatever the paths and
the other corner fields. -/
theorem merge_cross_subpath (paths : List (List Segment)) (self other : Corner)
    (h : other.index.1 ≠ self.index.1) :
    merge paths self other = .error .crossSubpath := by
  rw [merge, if_pos h]

/-- C9 witness: two concrete corners on subpaths 0 and 1. -/
theorem merge_cross_subpath_witness :
    ((⟨(1, 0), 0, 0, 0, 0⟩ : Corner).index.1 ≠ (dcorner : Corner).index.1) ∧
    merge [] dcorner ⟨(1, 0), 0, 0, 0, 0⟩ = .error .crossSubpath :=
  ⟨by simp [dcorner], merge_cross_subpath [] dcorner ⟨(1, 0), 0, 0, 0, 0⟩ (by simp [dcorner])⟩

/-- C10: when a subpath's candidate list holds exactly one corner, the
merge pass merges that corner with itself (both the straight-line and the
along-contour distance are 0, so the self-merge succeeds) and removes it:
the subpath contributes no corner to the output map. -/
theorem singleton_candidate_vanishes (paths : List (List Segment)) (i : ℕ) (c : Corner)
    (h : candidateCorners paths i = [c]) :
    merge paths c c = .ok (some ⟨c.index, c.point, c.tangent1, c.tangent2,
      get_angle c.tangent1 c.tangent2⟩) ∧
    mergeLoop paths (candidateCorners paths i) 0 = .ok [] := by
  rw [h]
  exact ⟨merge_self_eq paths c, mergeLoop_singleton paths c⟩

/-- C10 witness: pathC10 has exactly one candidate corner and its merge
pass returns the empty list. -/
theorem singleton_candidate_vanishes_witness :
    candidateCorners [pathC10] 0 = [cC10] ∧
    mergeLoop [pathC10] (candidateCorners [pathC10] 0) 0 = .ok [] :=
  ⟨cands_C10, (singleton_candidate_vanishes [pathC10] 0 cC10 cands_C10).2⟩


/-! Material for claim C1. -/

lemma run_classifier_mem (f0 f1 f2 f3 f4 f5 f6 : ℝ) :
    run_classifier f0 f1 f2 f3 f4 f5 f6 ∈ ({0, 1/2, 3/4, 1} : Set ℚ) := by
  simp only [run_classifier]
  split_ifs <;> simp

/-- The source's nested conditional is equivalent to the claim's flat
three-case decision rule. -/
lemma run_classifier_eq_cases (f0 f1 f2 f3 f4 f5 f6 : ℝ) :
    run_classifier f0 f1 f2 f3 f4 f5 f6 =
      if f2 * f3 > 0 ∧
          (|f0| + |f1| < 0.1 * Real.pi ∨
            |f0| + |f1| + |(|f2| + |f3|) - Real.pi| < 0.2 * Real.pi) then
        (if f6 < MAX_BRIDGE_DISTANCE / 2 then 1 else 3 / 4)
      else if f2 * f3 > 0 ∧ (f6 < MAX_BRIDGE_DISTANCE / 2 ∧
          (f0 * f1 > 0 ∧ f0 * f2 < 0 ∧ |f0| + |f1| < Real.pi ∧
            |f2| + |f3| > 0.5 * Real.pi)) then 1 / 2
      else 0 := by
  simp only [run_classifier]
  split_ifs <;> tauto

lemma try_connect_cB1 : try_connect dcorner ⟨(1, 0), 0, 0, 0, 0⟩ false = 1 := by
  simp [try_connect, dcorner]

lemma spec_confidence_cB1 : spec_confidence_claim dcorner ⟨(1, 0), 0, 0, 0, 0⟩ false = 0 := by
  have hz : ∀ v : ℂ, get_angle v 0 = 0 := fun v => get_angle_zero v 0 (Or.inr rfl)
  have hz2 : ∀ v : ℂ, get_angle 0 v = 0 := fun v => get_angle_zero 0 v (Or.inl rfl)
  simp only [spec_confidence_claim, spec_decision, spec_features, dcorner]
  norm_num [MAX_BRIDGE_DISTANCE, hz, hz2]

/-- C1 counterexample: two distinct corners with the same point (as two
coincident corners on different subpaths have). The code returns
confidence 1, but the claim's rule — distance gate then the seven-feature
decision — yields 0, because a zero diff makes every angle feature 0 and
hence f2*f3 = 0. -/
theorem classifier_claim_counterexample :
    ((⟨(1, 0), 0, 0, 0, 0⟩ : Corner).index ≠ dcorner.index) ∧
    try_connect dcorner ⟨(1, 0), 0, 0, 0, 0⟩ false = 1 ∧
    spec_confidence_claim dcorner ⟨(1, 0), 0, 0, 0, 0⟩ false = 0 :=
  ⟨by simp [dcorner], try_connect_cB1, spec_confidence_cB1⟩

/-- C1 amended: the confidence returned for a pair of corners is 1 when
the points coincide; otherwise 0 beyond MAX_BRIDGE_DISTANCE; otherwise
exactly the claim's three-case rule on the seven features; and it is
always one of {0, 1/2, 3/4, 1}. -/
theorem try_connect_amended (self other : Corner) (reverse : Bool) :
    try_connect self other reverse ∈ ({0, 1/2, 3/4, 1} : Set ℚ) ∧
    (other.point = self.point → try_connect self other reverse = 1) ∧
    (other.point ≠ self.point →
      Complex.abs (other.point - self.point) > MAX_BRIDGE_DISTANCE →
      try_connect self other reverse = 0) ∧
    (other.point ≠ self.point →
      ¬ Complex.abs (other.point - self.point) > MAX_BRIDGE_DISTANCE →
      try_connect self other reverse = spec_decision self other reverse) := by
  refine ⟨?_, ?_, ?_, ?_⟩
  · simp only [try_connect]
    split_ifs <;> first
      | exact run_classifier_mem _ _ _ _ _ _ _
      | simp
  · intro h
    rw [try_connect, if_pos h]
  · intro h1 h2
    simp only [try_connect, if_neg h1]
    rw [if_pos h2]
  · intro h1 h2
    simp only [try_connect, if_neg h1]
    rw [if_neg h2, run_classifier_eq_cases]
    simp only [spec_decision, spec_features]


/-- C8: the pipeline of augment_glyph only depends on the non-degenerate
segments (filtering is idempotent, so degenerate segments are excluded
before any corner or angle computation), and a glyph whose segments are
all degenerate — which includes the empty glyph — raises InputError. -/
theorem degenerate_excluded_and_input_error (segs : List Segment) :
    augment_glyph segs = augment_glyph (segs.filter fun s => s.start ≠ s.stop) ∧
    ((∀ s ∈ segs, s.start = s.stop) → augment_glyph segs = .error .inputError) := by
  constructor
  · have h : (segs.filter fun s => s.start ≠ s.stop).filter (fun s => s.start ≠ s.stop) =
        segs.filter (fun s => s.start ≠ s.stop) := by
      rw [List.filter_filter]
      congr 1
      funext s
      rw [Bool.and_self]
    simp only [augment_glyph, h]
  · intro h
    have hfil : segs.filter (fun s => s.start ≠ s.stop) = [] := by
      rw [List.filter_eq_nil_iff]
      intro s hs
      simp [h s hs]
    simp only [augment_glyph, hfil]
    simp

/-- C8 witness: a glyph consisting of a single degenerate segment. -/
theorem degenerate_input_error_witness :
    (∀ s ∈ [Segment.line 0 0], s.start = s.stop) ∧
    augment_glyph [Segment.line 0 0] = .error .inputError := by
  have h : ∀ s ∈ [Segment.line 0 0], s.start = s.stop := by
    intro s hs
    simp only [List.mem_singleton] at hs
    rw [hs]
    rfl
  exact ⟨h, (degenerate_excluded_and_input_error [Segment.line 0 0]).2 h⟩


/-! Material for claims C5, C6, C7: the bridge selector. -/

lemma connect_pos_ne (c o : Corner) (h : connect c o > 0) : o.index ≠ c.index := by
  intro he
  rw [connect, if_pos he] at h
  exact absurd h (by norm_num)

lemma candidatesOf_ne (M : List Corner) (x : Cand) (hx : x ∈ candidatesOf M) :
    x.2.1 ≠ x.2.2 := by
  simp only [candidatesOf, List.mem_flatMap, List.mem_filterMap] at hx
  obtain ⟨c, _, o, _, ho⟩ := hx
  by_cases hpos : connect c o > 0
  · rw [if_pos hpos] at ho
    obtain rfl := Option.some_injective _ ho
    exact fun he => connect_pos_ne c o hpos he.symm
  · rw [if_neg hpos] at ho
    exact absurd ho (by simp)

lemma mem_insertDesc {x y : Cand} {l : List Cand} (h : x ∈ insertDesc y l) :
    x = y ∨ x ∈ l := by
  induction l with
  | nil =>
    simp only [insertDesc, List.mem_singleton] at h
    exact Or.inl h
  | cons a tl ih =>
    rw [insertDesc] at h
    split_ifs at h
    · simp only [List.mem_cons] at h ⊢
      tauto
    · simp only [List.mem_cons] at h ⊢
      rcases h with h | h
      · tauto
      · rcases ih h with h1 | h1 <;> tauto

lemma mem_sortDesc {x : Cand} {l : List Cand} (h : x ∈ sortDesc l) : x ∈ l := by
  induction l with
  | nil => simp [sortDesc] at h
  | cons a tl ih =>
    rw [sortDesc] at h
    rcases mem_insertDesc h with h1 | h1
    · simp [h1]
    · exact List.mem_cons_of_mem a (ih h1)

lemma selectLoop_inv (M : List Corner) (cands : List Cand) :
    ∀ (acc bs : Finset ((ℕ × ℕ) × (ℕ × ℕ))),
      (∀ x ∈ cands, x.2.1 ≠ x.2.2) →
      (∀ a b, (a, b) ∈ acc → (b, a) ∈ acc) →
      (∀ a, (a, a) ∉ acc) →
      selectLoop M cands acc = .ok bs →
      (∀ a b, (a, b) ∈ bs → (b, a) ∈ bs) ∧ (∀ a, (a, a) ∉ bs) := by
  induction cands with
  | nil =>
    intro acc bs _ hsym hirr h
    rw [selectLoop] at h
    obtain rfl : acc = bs := by injection h
    exact ⟨hsym, hirr⟩
  | cons hd tl ih =>
    obtain ⟨conf, i1, i2⟩ := hd
    intro acc bs hne hsym hirr h
    have hi12 : i1 ≠ i2 := hne (conf, i1, i2) (List.mem_cons_self _ _)
    have htl : ∀ x ∈ tl, x.2.1 ≠ x.2.2 := fun x hx => hne x (List.mem_cons_of_mem _ hx)
    simp only [selectLoop] at h
    split_ifs at h with hcap
    · exact ih acc bs htl hsym hirr h
    · rcases hss : should_split M i1 i2 with e | b
      · rw [hss] at h
        exact absurd h (by simp)
      · rw [hss] at h
        cases b with
        | true => exact ih acc bs htl hsym hirr h
        | false =>
          refine ih _ bs htl ?_ ?_ h
          · intro a b hab
            simp only [Finset.mem_insert, Prod.mk.injEq] at hab ⊢
            rcases hab with ⟨rfl, rfl⟩ | ⟨rfl, rfl⟩ | hab
            · tauto
            · tauto
            · exact Or.inr (Or.inr (hsym a b hab))
          · intro a ha
            simp only [Finset.mem_insert, Prod.mk.injEq] at ha
            rcases ha with ⟨h1, h2⟩ | ⟨h1, h2⟩ | ha
            · exact hi12 (h1 ▸ h2 ▸ rfl)
            · exact hi12 (h2 ▸ h1 ▸ rfl)
            · exact hirr a ha

/-- C7: whenever get_bridges returns a bridge set, that set is symmetric
((a,b) in the set implies (b,a) in the set) and contains no self-pair. -/
theorem bridges_symmetric_irreflexive (M : List Corner)
    (bs : Finset ((ℕ × ℕ) × (ℕ × ℕ))) (h : get_bridges M = .ok bs) :
    (∀ a b, (a, b) ∈ bs → (b, a) ∈ bs) ∧ ∀ a, (a, a) ∉ bs := by
  refine selectLoop_inv M (sortDesc (candidatesOf M)) ∅ bs ?_ (by simp) (by simp) h
  intro x hx
  exact candidatesOf_ne M x (mem_sortDesc hx)

/-- C7 witness: the empty corner map yields the empty bridge set, which
the theorem certifies symmetric and irreflexive. -/
theorem bridges_symmetric_irreflexive_witness :
    get_bridges ([] : List Corner) = .ok ∅ ∧
    ((0, 0), (0, 0)) ∉ (∅ : Finset ((ℕ × ℕ) × (ℕ × ℕ))) :=
  ⟨rfl, (bridges_symmetric_irreflexive [] ∅ rfl).2 (0, 0)⟩


lemma shouldSplitGo_true (start diff : ℂ) (i1 i2 : ℕ × ℕ) (c : Corner)
    (hd : diff ≠ 0) (hci1 : c.index ≠ i1) (hci2 : c.index ≠ i2)
    (ht0 : 0 < tparam start diff c.point) (ht1 : tparam start diff c.point < 1)
    (hdist : Complex.abs (start + (tparam start diff c.point : ℝ) * diff - c.point) <
      MAX_CORNER_MERGE_DISTANCE) :
    ∀ rest : List Corner, c ∈ rest → shouldSplitGo start diff i1 i2 rest = .ok true := by
  have habs : Complex.abs diff ^ 2 ≠ 0 :=
    pow_ne_zero 2 ((AbsoluteValue.ne_zero_iff Complex.abs).mpr hd)
  intro rest
  induction rest with
  | nil => intro h; exact absurd h (List.not_mem_nil c)
  | cons a tl ih =>
    intro hmem
    rw [shouldSplitGo]
    by_cases hskip : a.index = i1 ∨ a.index = i2
    · rw [if_pos hskip]
      apply ih
      rcases List.mem_cons.mp hmem with rfl | h
      · rcases hskip with h | h
        · exact absurd h hci1
        · exact absurd h hci2
      · exact h
    · rw [if_neg hskip, if_neg habs]
      by_cases hcond : 0 < tparam start diff a.point ∧ tparam start diff a.point < 1 ∧
          Complex.abs (start + (tparam start diff a.point : ℝ) * diff - a.point) <
            MAX_CORNER_MERGE_DISTANCE
      · rw [if_pos hcond]
      · rw [if_neg hcond]
        apply ih
        rcases List.mem_cons.mp hmem with rfl | h
        · exact absurd ⟨ht0, ht1, hdist⟩ hcond
        · exact h

lemma should_split_true (M : List Corner) (i1 i2 : ℕ × ℕ) (c1 c2 c : Corner)
    (h1 : M.find? (fun x => x.index = i1) = some c1)
    (h2 : M.find? (fun x => x.index = i2) = some c2)
    (hd : c2.point - c1.point ≠ 0)
    (hc : c ∈ M) (hci1 : c.index ≠ i1) (hci2 : c.index ≠ i2)
    (ht0 : 0 < tparam c1.point (c2.point - c1.point) c.point)
    (ht1 : tparam c1.point (c2.point - c1.point) c.point < 1)
    (hdist : Complex.abs (c1.point +
        (tparam c1.point (c2.point - c1.point) c.point : ℝ) * (c2.point - c1.point) -
        c.point) < MAX_CORNER_MERGE_DISTANCE) :
    should_split M i1 i2 = .ok true := by
  rw [should_split, h1, h2]
  exact shouldSplitGo_true c1.point (c2.point - c1.point) i1 i2 c hd hci1 hci2
    ht0 ht1 hdist M hc

/-- The projection parameter seen from the other endpoint is 1 - t. -/
lemma tparam_symm (A B p : ℂ) (hd : B - A ≠ 0) :
    tparam B (A - B) p = 1 - tparam A (B - A) p := by
  have hn : Complex.normSq (A - B) = Complex.normSq (B - A) := by
    rw [show A - B = -(B - A) by ring, Complex.normSq_neg]
  have hs : Complex.normSq (B - A) ≠ 0 := by
    rw [ne_eq, Complex.normSq_eq_zero]
    exact hd
  rw [tparam, tparam, Complex.sq_abs, Complex.sq_abs, hn]
  field_simp
  simp only [Complex.normSq_apply, Complex.sub_re, Complex.sub_im]
  ring

lemma selectLoop_excludes (M : List Corner) (i1 i2 : ℕ × ℕ)
    (hs1 : should_split M i1 i2 = .ok true)
    (hs2 : should_split M i2 i1 = .ok true) :
    ∀ (cands : List Cand) (acc bs : Finset ((ℕ × ℕ) × (ℕ × ℕ))),
      (i1, i2) ∉ acc → (i2, i1) ∉ acc →
      selectLoop M cands acc = .ok bs → (i1, i2) ∉ bs ∧ (i2, i1) ∉ bs := by
  intro cands
  induction cands with
  | nil =>
    intro acc bs h1 h2 h
    rw [selectLoop] at h
    obtain rfl : acc = bs := by injection h
    exact ⟨h1, h2⟩
  | cons hd tl ih =>
    obtain ⟨conf, j1, j2⟩ := hd
    intro acc bs h1 h2 h
    simp only [selectLoop] at h
    split_ifs at h with hcap
    · exact ih acc bs h1 h2 h
    · rcases hss : should_split M j1 j2 with e | b
      · rw [hss] at h
        exact absurd h (by simp)
      · rw [hss] at h
        cases b with
        | true => exact ih acc bs h1 h2 h
        | false =>
          refine ih _ bs ?_ ?_ h
          · simp only [Finset.mem_insert, Prod.mk.injEq]
            push_neg
            refine ⟨?_, ?_, h1⟩
            · intro hj1 hj2
              rw [← hj1, ← hj2] at hss
              rw [hss] at hs1
              simp at hs1
            · intro hj2 hj1
              rw [← hj2, ← hj1] at hss
              rw [hss] at hs2
              simp at hs2
          · simp only [Finset.mem_insert, Prod.mk.injEq]
            push_neg
            refine ⟨?_, ?_, h2⟩
            · intro hj1 hj2
              rw [← hj1, ← hj2] at hss
              rw [hss] at hs2
              simp at hs2
            · intro hj2 hj1
              rw [← hj2, ← hj1] at hss
              rw [hss] at hs1
              simp at hs1


/-- C6: a candidate bridge between the corners at indices i1 and i2 is
never in the final accepted bridge set when some third corner c projects
into the open segment (0 < t < 1) within MAX_CORNER_MERGE_DISTANCE of
the line through the two corner points — in either orientation. -/
theorem bridge_blocked_by_interior_corner
    (M : List Corner) (i1 i2 : ℕ × ℕ) (c1 c2 c : Corner)
    (h1 : M.find? (fun x => x.index = i1) = some c1)
    (h2 : M.find? (fun x => x.index = i2) = some c2)
    (hc : c ∈ M) (hci1 : c.index ≠ i1) (hci2 : c.index ≠ i2)
    (hd : c2.point ≠ c1.point)
    (ht0 : 0 < tparam c1.point (c2.point - c1.point) c.point)
    (ht1 : tparam c1.point (c2.point - c1.point) c.point < 1)
    (hdist : Complex.abs (c1.point +
        (tparam c1.point (c2.point - c1.point) c.point : ℝ) * (c2.point - c1.point) -
        c.point) < MAX_CORNER_MERGE_DISTANCE)
    (bs : Finset ((ℕ × ℕ) × (ℕ × ℕ))) (hok : get_bridges M = .ok bs) :
    (i1, i2) ∉ bs ∧ (i2, i1) ∉ bs := by
  have hd' : c2.point - c1.point ≠ 0 := sub_ne_zero.mpr hd
  have hs1 : should_split M i1 i2 = .ok true :=
    should_split_true M i1 i2 c1 c2 c h1 h2 hd' hc hci1 hci2 ht0 ht1 hdist
  have hs2 : should_split M i2 i1 = .ok true := by
    have hd2 : c1.point - c2.point ≠ 0 := fun h => hd' (by
      rw [show c2.point - c1.point = -(c1.point - c2.point) by ring, h, neg_zero])
    have hts := tparam_symm c1.point c2.point c.point hd'
    apply should_split_true M i2 i1 c2 c1 c h2 h1 hd2 hc hci2 hci1
    · rw [hts]
      linarith
    · rw [hts]
      linarith
    · rw [hts]
      have he : c2.point +
          ((1 - tparam c1.point (c2.point - c1.point) c.point : ℝ) : ℂ) *
            (c1.point - c2.point) - c.point =
          c1.point +
          ((tparam c1.point (c2.point - c1.point) c.point : ℝ) : ℂ) *
            (c2.point - c1.point) - c.point := by
        push_cast
        ring
      rw [he]
      exact hdist
  exact selectLoop_excludes M i1 i2 hs1 hs2 (sortDesc (candidatesOf M)) ∅ bs
    (Finset.not_mem_empty _) (Finset.not_mem_empty _) hok

/-! Concrete corner map for the C6 witness: three corners on one subpath
with zero tangents (so no pair classifies as a bridge candidate), the
third sitting 5 units off the midpoint of the segment between the other
two. -/

/-- Witness corner at the origin. -/
def wA : Corner := ⟨(0, 0), 0, 0, 0, 0⟩

/-- Witness corner at (100, 0). -/
def wB : Corner := ⟨(0, 1), 100, 0, 0, 0⟩

/-- Witness corner at (50, 5). -/
def wC : Corner := ⟨(0, 2), 50 + 5*I, 0, 0, 0⟩

/-- The witness corner map. -/
def MW : List Corner := [wA, wB, wC]

lemma try_connect_zero_tangent2 (self other : Corner) (r : Bool)
    (hpt : other.point ≠ self.point)
    (hlen : ¬ Complex.abs (other.point - self.point) > MAX_BRIDGE_DISTANCE)
    (h2 : self.tangent2 = 0) :
    try_connect self other r = 0 := by
  simp only [try_connect, if_neg hpt]
  rw [if_neg hlen, h2, get_angle_zero _ 0 (Or.inr rfl), run_classifier]
  norm_num


lemma connect_zero_pair (a b : Corner) (hab : b.index ≠ a.index)
    (h2 : a.tangent2 = 0) (hpt : b.point ≠ a.point)
    (hlen : Complex.abs (b.point - a.point) ≤ MAX_BRIDGE_DISTANCE) :
    connect a b = 0 := by
  rw [connect, if_neg hab]
  have h := try_connect_zero_tangent2 a b false hpt (not_lt.mpr hlen) h2
  have h' := try_connect_zero_tangent2 a b true hpt (not_lt.mpr hlen) h2
  split_ifs
  · exact h
  · rw [h, h']
    simp

lemma hwAB : connect wA wB = 0 := by
  apply connect_zero_pair
  · simp only [wA, wB]
    decide
  · rfl
  · simp [wA, wB]
  · have h : wB.point - wA.point = 100 := by simp [wA, wB]
    rw [h]
    apply abs_le_eval _ _ (by norm_num [MAX_BRIDGE_DISTANCE])
    simp
    norm_num [MAX_BRIDGE_DISTANCE]

lemma hwBA : connect wB wA = 0 := by
  apply connect_zero_pair
  · simp only [wA, wB]
    decide
  · rfl
  · simp [wA, wB]
  · have h : wA.point - wB.point = -100 := by simp [wA, wB]
    rw [h]
    apply abs_le_eval _ _ (by norm_num [MAX_BRIDGE_DISTANCE])
    simp
    norm_num [MAX_BRIDGE_DISTANCE]

lemma hwAC : connect wA wC = 0 := by
  apply connect_zero_pair
  · simp only [wA, wC]
    decide
  · rfl
  · simp [wA, wC, Complex.ext_iff]
  · have h : wC.point - wA.point = 50 + 5*I := by simp [wA, wC]
    rw [h]
    apply abs_le_eval _ _ (by norm_num [MAX_BRIDGE_DISTANCE])
    simp
    norm_num [MAX_BRIDGE_DISTANCE]

lemma hwCA : connect wC wA = 0 := by
  apply connect_zero_pair
  · simp only [wA, wC]
    decide
  · rfl
  · simp [wA, wC, Complex.ext_iff]
  · have h : wA.point - wC.point = -(50 + 5*I) := by simp [wA, wC]
    rw [h]
    apply abs_le_eval _ _ (by norm_num [MAX_BRIDGE_DISTANCE])
    simp
    norm_num [MAX_BRIDGE_DISTANCE]

lemma hwBC : connect wB wC = 0 := by
  apply connect_zero_pair
  · simp only [wB, wC]
    decide
  · rfl
  · simp [wB, wC, Complex.ext_iff]
  · have h : wC.point - wB.point = -50 + 5*I := by
      simp [wB, wC]
      ring
    rw [h]
    apply abs_le_eval _ _ (by norm_num [MAX_BRIDGE_DISTANCE])
    simp
    norm_num [MAX_BRIDGE_DISTANCE]

lemma hwCB : connect wC wB = 0 := by
  apply connect_zero_pair
  · simp only [wB, wC]
    decide
  · rfl
  · simp [wB, wC, Complex.ext_iff]
  · have h : wB.point - wC.point = 50 - 5*I := by
      simp [wB, wC]
      ring
    rw [h]
    apply abs_le_eval _ _ (by norm_num [MAX_BRIDGE_DISTANCE])
    simp
    norm_num [MAX_BRIDGE_DISTANCE]

lemma cands_MW : candidatesOf MW = [] := by
  have hAA : connect wA wA = 0 := by rw [connect, if_pos rfl]
  have hBB : connect wB wB = 0 := by rw [connect, if_pos rfl]
  have hCC : connect wC wC = 0 := by rw [connect, if_pos rfl]
  simp only [candidatesOf, MW, List.flatMap_cons, List.flatMap_nil, List.filterMap_cons,
    List.filterMap_nil, hAA, hwAB, hwAC, hwBA, hBB, hwBC, hwCA, hwCB, hCC]
  norm_num

lemma bridges_MW : get_bridges MW = .ok ∅ := by
  rw [get_bridges, cands_MW]
  rfl

lemma findA : MW.find? (fun x => x.index = (0, 0)) = some wA := by
  rw [show MW = [wA, wB, wC] from rfl]
  rw [List.find?_cons_of_pos _ (by simp [wA])]

lemma findB : MW.find? (fun x => x.index = (0, 1)) = some wB := by
  rw [show MW = [wA, wB, wC] from rfl]
  rw [List.find?_cons_of_neg _ (by simp only [wA]; decide),
    List.find?_cons_of_pos _ (by simp [wB])]

lemma tw_eval : tparam wA.point (wB.point - wA.point) wC.point = 1/2 := by
  have h : wB.point - wA.point = 100 := by simp [wA, wB]
  have habs : Complex.abs (100 : ℂ) = 100 := by
    apply abs_eval _ _ (by norm_num)
    simp
  rw [h, tparam, habs]
  simp [wA, wC]
  norm_num

/-- C6 witness: in the corner map MW the corner wC sits at t = 1/2 and
distance 5 from the wA-wB segment; get_bridges returns the empty set and
the theorem certifies the wA-wB pair absent from it. -/
theorem bridge_blocked_witness :
    ((0, 0), (0, 1)) ∉ (∅ : Finset ((ℕ × ℕ) × (ℕ × ℕ))) ∧
    ((0, 1), (0, 0)) ∉ (∅ : Finset ((ℕ × ℕ) × (ℕ × ℕ))) := by
  have hdist : Complex.abs (wA.point +
      (tparam wA.point (wB.point - wA.point) wC.point : ℝ) * (wB.point - wA.point) -
      wC.point) < MAX_CORNER_MERGE_DISTANCE := by
    rw [tw_eval]
    have he : wA.point + ((1/2 : ℝ) : ℂ) * (wB.point - wA.point) - wC.point =
        -(5*I) := by
      simp only [wA, wB, wC]
      push_cast
      ring_nf
    rw [he]
    have habs : Complex.abs (-(5*I)) = 5 := by
      apply abs_eval _ _ (by norm_num)
      simp
    rw [habs, MAX_CORNER_MERGE_DISTANCE]
    norm_num
  exact bridge_blocked_by_interior_corner MW (0, 0) (0, 1) wA wB wC findA findB
    (by simp [MW]) (by simp [wC]) (by simp [wC])
    (by simp [wA, wB])
    (by rw [tw_eval]; norm_num) (by rw [tw_eval]; norm_num) hdist ∅ bridges_MW


/-! Material for claim C5: two coincident corners on different subpaths
plus one distant third corner. -/

/-- Coincident corner on subpath 0, at the origin. -/
def cA5 : Corner := ⟨(0, 3), 0, 0, 0, 0⟩

/-- Coincident corner on subpath 1, also at the origin. -/
def cB5 : Corner := ⟨(1, 3), 0, 0, 0, 0⟩

/-- A third corner far away (distance 200 > MAX_BRIDGE_DISTANCE). -/
def cC5 : Corner := ⟨(2, 0), 200, 0, 0, 0⟩

/-- The C5 corner map. -/
def M5 : List Corner := [cA5, cB5, cC5]

lemma try_connect_far (self other : Corner) (r : Bool)
    (hpt : other.point ≠ self.point)
    (hlen : Complex.abs (other.point - self.point) > MAX_BRIDGE_DISTANCE) :
    try_connect self other r = 0 := by
  simp only [try_connect, if_neg hpt]
  rw [if_pos hlen]

lemma abs_200 : Complex.abs ((200 : ℂ) - 0) = 200 := by
  apply abs_eval _ _ (by norm_num)
  simp

lemma abs_200n : Complex.abs ((0 : ℂ) - 200) = 200 := by
  apply abs_eval _ _ (by norm_num)
  simp

lemma conn_far (a : Corner) (ha : a.point = 0) (hsub : cC5.index.1 ≠ a.index.1)
    (hne : cC5.index ≠ a.index) : connect a cC5 = 0 := by
  have h1 : ∀ r, try_connect a cC5 r = 0 := by
    intro r
    apply try_connect_far
    · rw [ha]
      simp [cC5]
    · rw [ha]
      show Complex.abs (cC5.point - 0) > MAX_BRIDGE_DISTANCE
      have : cC5.point - 0 = (200 : ℂ) - 0 := by simp [cC5]
      rw [this, abs_200, MAX_BRIDGE_DISTANCE]
      norm_num
  rw [connect, if_neg hne, if_neg hsub, h1, h1]
  simp

lemma conn_far2 (a : Corner) (ha : a.point = 0) (hsub : a.index.1 ≠ cC5.index.1)
    (hne : a.index ≠ cC5.index) : connect cC5 a = 0 := by
  have h1 : ∀ r, try_connect cC5 a r = 0 := by
    intro r
    apply try_connect_far
    · rw [ha]
      simp [cC5]
    · rw [ha]
      show Complex.abs ((0 : ℂ) - cC5.point) > MAX_BRIDGE_DISTANCE
      have : (0 : ℂ) - cC5.point = (0 : ℂ) - 200 := by simp [cC5]
      rw [this, abs_200n, MAX_BRIDGE_DISTANCE]
      norm_num
  rw [connect, if_neg hne, if_neg hsub, h1, h1]
  simp

lemma conn_AB5 : connect cA5 cB5 = 1 := by
  have h1 : ∀ r, try_connect cA5 cB5 r = 1 := by
    intro r
    rw [try_connect, if_pos (by simp [cA5, cB5])]
  rw [connect, if_neg (by simp only [cA5, cB5]; decide),
    if_neg (by simp only [cA5, cB5]; decide), h1, h1]
  simp

lemma conn_BA5 : connect cB5 cA5 = 1 := by
  have h1 : ∀ r, try_connect cB5 cA5 r = 1 := by
    intro r
    rw [try_connect, if_pos (by simp [cA5, cB5])]
  rw [connect, if_neg (by simp only [cA5, cB5]; decide),
    if_neg (by simp only [cA5, cB5]; decide), h1, h1]
  simp

lemma cands_M5 : candidatesOf M5 =
    [(1, ((0, 3) : ℕ × ℕ), ((1, 3) : ℕ × ℕ)), (1, ((1, 3) : ℕ × ℕ), ((0, 3) : ℕ × ℕ))] := by
  have hAA : connect cA5 cA5 = 0 := by rw [connect, if_pos rfl]
  have hBB : connect cB5 cB5 = 0 := by rw [connect, if_pos rfl]
  have hCC : connect cC5 cC5 = 0 := by rw [connect, if_pos rfl]
  have hAC : connect cA5 cC5 = 0 :=
    conn_far cA5 rfl (by simp only [cA5, cC5]; decide) (by simp only [cA5, cC5]; decide)
  have hBC : connect cB5 cC5 = 0 :=
    conn_far cB5 rfl (by simp only [cB5, cC5]; decide) (by simp only [cB5, cC5]; decide)
  have hCA : connect cC5 cA5 = 0 :=
    conn_far2 cA5 rfl (by simp only [cA5, cC5]; decide) (by simp only [cA5, cC5]; decide)
  have hCB : connect cC5 cB5 = 0 :=
    conn_far2 cB5 rfl (by simp only [cB5, cC5]; decide) (by simp only [cB5, cC5]; decide)
  simp only [candidatesOf, M5, List.flatMap_cons, List.flatMap_nil, List.filterMap_cons,
    List.filterMap_nil, hAA, hBB, hCC, hAC, hBC, hCA, hCB, conn_AB5, conn_BA5]
  norm_num [cA5, cB5]

lemma find5B : M5.find? (fun x => x.index = (1, 3)) = some cB5 := by
  rw [show M5 = [cA5, cB5, cC5] from rfl]
  rw [List.find?_cons_of_neg _ (by simp only [cA5]; decide),
    List.find?_cons_of_pos _ (by simp [cB5])]

lemma find5A : M5.find? (fun x => x.index = (0, 3)) = some cA5 := by
  rw [show M5 = [cA5, cB5, cC5] from rfl]
  rw [List.find?_cons_of_pos _ (by simp [cA5])]

lemma ss_M5 : should_split M5 (1, 3) (0, 3) = .error .zeroDivision := by
  rw [should_split, find5B, find5A]
  show shouldSplitGo cB5.point (cA5.point - cB5.point) (1, 3) (0, 3) M5 =
    .error .zeroDivision
  rw [show M5 = [cA5, cB5, cC5] from rfl]
  rw [shouldSplitGo, if_pos (show cA5.index = (1, 3) ∨ cA5.index = (0, 3) from Or.inr rfl)]
  rw [shouldSplitGo, if_pos (show cB5.index = (1, 3) ∨ cB5.index = (0, 3) from Or.inl rfl)]
  rw [shouldSplitGo, if_neg (by simp only [cC5]; decide)]
  rw [if_pos]
  have h : cA5.point - cB5.point = 0 := by simp [cA5, cB5]
  rw [h]
  simp

/-- C5: on the corner map M5 — two coincident corners on different
subpaths plus a third corner — get_bridges crashes with a division by
zero inside should_split (the projection denominator |diff|^2 is 0 for
the coincident top-ranked pair) instead of accepting the pair. -/
theorem coincident_pair_with_third_corner_crashes :
    get_bridges M5 = .error .zeroDivision := by
  rw [get_bridges, cands_M5]
  have hsort : sortDesc
      [(1, ((0, 3) : ℕ × ℕ), ((1, 3) : ℕ × ℕ)), (1, ((1, 3) : ℕ × ℕ), ((0, 3) : ℕ × ℕ))] =
      [(1, ((1, 3) : ℕ × ℕ), ((0, 3) : ℕ × ℕ)), (1, ((0, 3) : ℕ × ℕ), ((1, 3) : ℕ × ℕ))] := by
    rw [sortDesc, sortDesc, sortDesc, insertDesc, insertDesc]
    norm_num [candLtB, tupLtB, insertDesc]
  rw [hsort]
  simp only [selectLoop]
  rw [if_neg (by simp), ss_M5]


/-- C1 witness: the amended rule evaluated at a coincident pair (yielding
1) and at a pair beyond MAX_BRIDGE_DISTANCE (yielding 0). -/
theorem try_connect_amended_witness :
    try_connect cA5 cB5 true = 1 ∧ try_connect dcorner cC5 false = 0 := by
  constructor
  · exact (try_connect_amended cA5 cB5 true).2.1 (by simp [cA5, cB5])
  · apply (try_connect_amended dcorner cC5 false).2.2.1
    · show cC5.point ≠ dcorner.point
      simp [cC5, dcorner]
    · show Complex.abs (cC5.point - dcorner.point) > MAX_BRIDGE_DISTANCE
      have h : cC5.point - dcorner.point = (200 : ℂ) - 0 := by simp [cC5, dcorner]
      rw [h, abs_200, MAX_BRIDGE_DISTANCE]
      norm_num

end
